import Mathlib

/-!
Verification development for the void edit-directive engine.

The source is TypeScript; texts are embedded as `List Char`.  The JavaScript
string operations used by the source (split, join, replace, trim, padStart,
regular-expression search over literal patterns) are translated into
executable Lean functions below.  Machine integers in the source are plain
JavaScript numbers holding small non-negative integers, embedded as `Nat`.
-/

namespace VoidEdit

/-- Digit character for a value below ten; JavaScript number-to-string only
produces these for the line numbers handled here. -/
def digitChar : Nat → Char
  | 0 => '0' | 1 => '1' | 2 => '2' | 3 => '3' | 4 => '4'
  | 5 => '5' | 6 => '6' | 7 => '7' | 8 => '8' | 9 => '9'
  | _ => '0'

/-- Decimal digits of a number, fuel-based so that concrete inputs compute
by kernel reduction.  Fuel `n + 1` always suffices. -/
def natDigitsAux : Nat → Nat → List Char
  | 0, _ => []
  | fuel + 1, n => if n < 10 then [digitChar n] else natDigitsAux fuel (n / 10) ++ [digitChar (n % 10)]

/-- Embedding of JavaScript `Number.prototype.toString` for the non-negative
integers used as line numbers. -/
def natDigits (n : Nat) : List Char := natDigitsAux (n + 1) n

/-- Embedding of `String.prototype.padStart(len, "0")`. -/
def padZeros (len : Nat) (ds : List Char) : List Char :=
  List.replicate (len - ds.length) '0' ++ ds

/-- JavaScript whitespace test used by `trim` and by `line.trim()` emptiness
checks. -/
def jsIsSpace (c : Char) : Bool := c.isWhitespace

/-- Embedding of `String.prototype.trim`. -/
def jsTrim (s : List Char) : List Char :=
  ((s.dropWhile jsIsSpace).reverse.dropWhile jsIsSpace).reverse

/-- Embedding of `String.prototype.split(sep)` for a single-character
separator: `"".split` gives one empty piece, a trailing separator gives a
trailing empty piece. -/
def splitSep (sep : Char) : List Char → List (List Char)
  | [] => [[]]
  | c :: rest =>
    if c = sep then [] :: splitSep sep rest
    else (c :: (splitSep sep rest).headI) :: (splitSep sep rest).tail

/-- Embedding of `Array.prototype.join(sep)` for a single-character
separator. -/
def joinSep (sep : Char) : List (List Char) → List Char
  | [] => []
  | [l] => l
  | l :: l2 :: ls => l ++ sep :: joinSep sep (l2 :: ls)

/-- Embedding of `content.replace(/\r\n/g, "\n")`: one left-to-right pass
replacing each carriage-return/line-feed pair by a line feed. -/
def normalizeEol : List Char → List Char
  | [] => []
  | [c] => [c]
  | c1 :: c2 :: rest =>
    if c1 = '\r' ∧ c2 = '\n' then '\n' :: normalizeEol rest
    else c1 :: normalizeEol (c2 :: rest)

/-- Whether every carriage return in the text is immediately followed by a
line feed, i.e. the text has no bare carriage return; the normalized form of
such a text contains no carriage return at all. -/
def noBareCR : List Char → Bool
  | [] => true
  | [c] => !(c == '\r')
  | c1 :: c2 :: rest =>
    if c1 = '\r' then (if c2 = '\n' then noBareCR rest else false)
    else noBareCR (c2 :: rest)

/-- Embedding of `String.prototype.replace(pattern, repl)` with a literal
string pattern: replaces the first occurrence only.  Dollar patterns in the
replacement are not used by the source and are not modelled. -/
def replaceFirstAux (pat repl : List Char) : List Char → List Char
  | [] => []
  | c :: rest =>
    if pat.isPrefixOf (c :: rest) then repl ++ (c :: rest).drop pat.length
    else c :: replaceFirstAux pat repl rest

/-- First-occurrence literal replacement; an empty pattern matches at the
start, as in JavaScript. -/
def replaceFirst (s pat repl : List Char) : List Char :=
  if pat = [] then repl ++ s else replaceFirstAux pat repl s

/-- Embedding of a global literal replacement `s.replace(/pat/g, repl)`,
fuel-based; fuel equal to the length of the text suffices because every step
consumes at least one character. -/
def replaceAllAux (pat repl : List Char) : Nat → List Char → List Char
  | 0, s => s
  | _ + 1, [] => []
  | fuel + 1, c :: rest =>
    if pat.isPrefixOf (c :: rest) then repl ++ replaceAllAux pat repl fuel ((c :: rest).drop pat.length)
    else c :: replaceAllAux pat repl fuel rest

/-- Global literal replacement.  The source only uses non-empty patterns. -/
def replaceAll (s pat repl : List Char) : List Char :=
  if pat = [] then s else replaceAllAux pat repl s.length s

/-- Whether `pat` occurs as a contiguous segment of `s`; used to state that
an error message contains a given number or text. -/
def containsSeg : List Char → List Char → Bool
  | pat, [] => pat.isEmpty
  | pat, c :: rest => pat.isPrefixOf (c :: rest) || containsSeg pat rest

/-- Options of LineNumberService.addLineNumbers: starting number, fixed
padding (none meaning auto), and whether to skip blank lines. -/
structure LineNumberOptions where
  startAt : Nat
  padding : Option Nat
  excludeEmptyLines : Bool
deriving DecidableEq

/-- The default options object of addLineNumbers. -/
def defaultLineNumberOptions : LineNumberOptions := ⟨1, none, false⟩

/-- The bracketed zero-padded marker put in front of a line. -/
def lineMark (pad n : Nat) : List Char := '[' :: (padZeros pad (natDigits n) ++ [']'])

/-- The line-mapping step of addLineNumbers.  The accumulator is the absolute
line number, matching `startAt + index` in the source; a line that already
starts with its exact expected marker is left unchanged. -/
def numberLines (pad : Nat) (excl : Bool) : Nat → List (List Char) → List (List Char)
  | _, [] => []
  | n, line :: rest =>
    (if excl && line.all jsIsSpace then line
     else if (lineMark pad n).isPrefixOf line then line
     else lineMark pad n ++ line) :: numberLines pad excl (n + 1) rest

/-- Embedding of LineNumberService.addLineNumbers (the version with the
fixed bracket format): normalizes line endings, splits on line feeds, and
prefixes each line with a bracketed zero-padded ordinal unless the line
already carries exactly that marker. -/
def addLineNumbers (content : List Char) (opts : LineNumberOptions) : List Char :=
  if content = [] then content
  else
    let lines := splitSep '\n' (normalizeEol content)
    let maxLineNumber := opts.startAt + lines.length - 1
    let pad := (opts.padding).getD (natDigits maxLineNumber).length
    joinSep '\n' (numberLines pad opts.excludeEmptyLines opts.startAt lines)

/-- Whether no line of the list already begins with its exact expected
marker, counting from the given absolute line number; the condition under
which addLineNumbers prefixes every line. -/
def marksFree (pad : Nat) : Nat → List (List Char) → Bool
  | _, [] => true
  | n, line :: rest => !((lineMark pad n).isPrefixOf line) && marksFree pad (n + 1) rest

/-- Prefix every line with its marker, counting from the given absolute
line number. -/
def addMarks (pad : Nat) : Nat → List (List Char) → List (List Char)
  | _, [] => []
  | n, line :: rest => (lineMark pad n ++ line) :: addMarks pad (n + 1) rest

/-- Strip one leading bracketed-digits marker from a piece of text, keeping
everything after the closing bracket; mirrors one anchored match of the
pattern bracket-digits-bracket with the following whitespace captured and
kept. -/
def stripMark (line : List Char) : List Char :=
  match line with
  | '[' :: rest =>
    let ds := rest.takeWhile Char.isDigit
    if ds = [] then line
    else
      match rest.drop ds.length with
      | ']' :: tail => tail
      | _ => line
  | _ => line

/-- Strip markers inside one line-feed piece: a multiline anchor also matches
right after a carriage return, so the piece is further split on carriage
returns and each sub-piece loses a leading marker. -/
def stripPiece (part : List Char) : List Char :=
  joinSep '\r' ((splitSep '\r' part).map stripMark)

/-- Embedding of LineNumberService.removeFixedLineNumbers: the global
multiline replacement removes a bracketed-digits marker at the start of the
text and after every line terminator, keeping the whitespace that follows
each marker. -/
def removeFixedLineNumbers (content : List Char) : List Char :=
  if content = [] then content
  else joinSep '\n' ((splitSep '\n' content).map stripPiece)

/-- Embedding of LineNumberService.getLineCount: empty text has zero lines;
otherwise line endings are normalized, the text is split on line feeds, and
a trailing empty piece coming from a final newline is not counted. -/
def getLineCount (content : List Char) : Nat :=
  if content = [] then 0
  else
    let lines := splitSep '\n' (normalizeEol content)
    if lines.getLast? = some [] then lines.length - 1 else lines.length

/-- Options of LineNumberService.getContentFragment. -/
structure GetContentFragmentOptions where
  includeLineNumbers : Bool
  lineNumberOptions : LineNumberOptions
  trimEmptyLines : Bool
deriving DecidableEq

/-- The default options object of getContentFragment. -/
def defaultFragmentOptions : GetContentFragmentOptions := ⟨false, defaultLineNumberOptions, false⟩

/-- Embedding of LineNumberService.getContentFragment: clamps the start line
to at least one and the end line to at least the start line, then slices the
inclusive one-based line range out of the normalized text. -/
def getContentFragment (content : List Char) (startLine endLine : Nat)
    (opts : GetContentFragmentOptions) : List Char :=
  if content = [] then content
  else
    let s := if startLine < 1 then 1 else startLine
    let e := if endLine < s then s else endLine
    let lines := splitSep '\n' (normalizeEol content)
    let fragmentLines := (lines.take e).drop (s - 1)
    let resultLines :=
      if opts.trimEmptyLines then fragmentLines.filter (fun l => !(l.all jsIsSpace))
      else fragmentLines
    if opts.includeLineNumbers then
      addLineNumbers (joinSep '\n' resultLines)
        ⟨s, opts.lineNumberOptions.padding, opts.lineNumberOptions.excludeEmptyLines⟩
    else joinSep '\n' resultLines

/-- One range-replace directive as carried through validateParams into the
replace tool: start and end line (absent when the caller omitted them) and
the replacement text. -/
structure EditByLinesItem where
  startLine : Option Nat
  endLine : Option Nat
  newContent : List Char
deriving DecidableEq

/-- Position selector of an insertion directive. -/
inductive BeforeAfter where
  | before
  | after
deriving DecidableEq

/-- One insertion directive as carried through validateParams into the
insert tool. -/
structure InsertFileBlocksItem where
  line_index : Option Nat
  before_after : Option BeforeAfter
  new_content : List Char
deriving DecidableEq

/-- One insertion item as actually pushed by parseRawInsertFileBlocks: the
anchor is stored under insert_after_line, next to the content. -/
structure ParsedInsertItem where
  insert_after_line : Nat
  new_content : List Char
deriving DecidableEq

/-- The errors thrown by the edit tools and parsers, as structured values;
errorMessage renders each to the exact thrown text. -/
inductive ToolError where
  | stale (current declared : Nat)
  | invalidRange (lineCount : Nat)
  | overlap (prevIdx prevStart prevStop currIdx currStart currStop : Nat)
  | invalidAnchor (lineCount : Nat)
  | noEdits
  | noInsertions
  | parseNoEditTags (cleaned : List Char)
  | parseNoEditTagsIns (cleaned : List Char)
  | parseMissingRange (idx : Nat) (block cleaned : List Char)
  | parseMissingLineIndex (idx : Nat) (block cleaned : List Char)
deriving DecidableEq

/-- The exact message text the source builds for each thrown error. -/
def errorMessage : ToolError → List Char
  | .stale current declared =>
    ("File content has been changed. Please refresh the file and try again.current line count:").toList
      ++ natDigits current ++ (",your file version line count:").toList ++ natDigits declared
  | .invalidRange lineCount =>
    ("Invalid line range: start_line must be >= 1 and <= end_line <= ").toList ++ natDigits lineCount
  | .overlap pIdx pStart pStop cIdx cStart cStop =>
    ("Edit blocks overlap at edits[").toList ++ natDigits pIdx ++ ("] (lines ").toList
      ++ natDigits pStart ++ ("-").toList ++ natDigits pStop ++ (") and edits[").toList
      ++ natDigits cIdx ++ ("] (lines ").toList ++ natDigits cStart ++ ("-").toList
      ++ natDigits cStop ++ ("). Overlapping edits are not allowed.").toList
  | .invalidAnchor lineCount =>
    ("Invalid line range: safe_line_index must be >= 1 <= ").toList ++ natDigits lineCount
  | .noEdits => ("No edits provided.").toList
  | .noInsertions => ("No rawInsertions provided.").toList
  | .parseNoEditTags cleaned =>
    ("[parseRawEdits] 未找到任何 <edit> 标签\nXML 内容:\n").toList ++ cleaned
  | .parseNoEditTagsIns cleaned =>
    ("[parseRawInsertFileBlocks] 未找到任何 <edit> 标签\nXML 内容:\n").toList ++ cleaned
  | .parseMissingRange i block cleaned =>
    ("[parseRawEdits] 第 ").toList ++ natDigits (i + 1)
      ++ (" 个 <edit> 缺少或格式错误的 <original_line_range>\nXML 内容:\n").toList ++ block
      ++ ("\n完整输入:\n").toList ++ cleaned
  | .parseMissingLineIndex i block cleaned =>
    ("[parseRawInsertFileBlocks] 第 ").toList ++ natDigits (i + 1)
      ++ (" 个 <edit> 缺少 <line_index>\nXML 内容:\n").toList ++ block
      ++ ("\n完整输入:\n").toList ++ cleaned

/-- A range with its submission index, as built for the overlap check. -/
structure RangeIdx where
  start : Nat
  stop : Nat
  idx : Nat
deriving DecidableEq

/-- Stable insertion by ascending start, matching the stability the
JavaScript specification guarantees for sort with this comparator. -/
def insertByStart (x : RangeIdx) : List RangeIdx → List RangeIdx
  | [] => [x]
  | y :: ys => if x.start ≤ y.start then x :: y :: ys else y :: insertByStart x ys

/-- Stable sort by ascending start. -/
def sortByStart : List RangeIdx → List RangeIdx
  | [] => []
  | x :: xs => insertByStart x (sortByStart xs)

/-- Adjacent-pair scan of the sorted ranges; the first pair whose second
range starts at or before the end of the first produces the overlap error
naming both submission indices and both ranges. -/
def findAdjOverlap : List RangeIdx → Option ToolError
  | r1 :: r2 :: rest =>
    if r2.start ≤ r1.stop then
      some (.overlap r1.idx r1.start r1.stop r2.idx r2.start r2.stop)
    else findAdjOverlap (r2 :: rest)
  | _ => none

/-- The ranges the replace tool derives from the whole batch: a missing
start defaults to one, a missing end to the current line count. -/
def rangesOf (lineCount : Nat) (edits : List EditByLinesItem) : List RangeIdx :=
  edits.enum.map (fun p => ⟨p.2.startLine.getD 1, p.2.endLine.getD lineCount, p.1⟩)

/-- The overlap check the replace tool recomputes on every loop iteration
over the full batch. -/
def overlapError (lineCount : Nat) (edits : List EditByLinesItem) : Option ToolError :=
  findAdjOverlap (sortByStart (rangesOf lineCount edits))

/-- The bounds condition the replace tool requires of one directive. -/
def rangeOk (lineCount : Nat) (e : EditByLinesItem) : Bool :=
  if e.startLine.getD 1 < 1 ∨ e.endLine.getD lineCount > lineCount
      ∨ e.startLine.getD 1 > e.endLine.getD lineCount then false
  else true

/-- The anchor condition the insert tool requires of one directive. -/
def anchorOk (lineCount : Nat) (e : InsertFileBlocksItem) : Bool :=
  if e.line_index.getD 1 < 1 ∨ e.line_index.getD 1 > lineCount then false
  else true

/-- Modelled from the spec: the line count of the external document model
(the model object is a collaborator outside this repository); the Line
Indexer countLines semantics gives the current line count of the file. -/
def modelLineCount (content : List Char) : Nat := getLineCount content

/-- Modelled from the spec: getValue of the external document model with the
line-feed preference returns the buffer with line endings unified. -/
def modelGetValueLF (content : List Char) : List Char := normalizeEol content

/-- The per-directive loop of the replace tool: each iteration checks the
bounds of the current directive, recomputes the overlap check over the full
batch, then substitutes the line-indexed fragment of the original text by
the new content in the working buffer. -/
def replaceLoop (lineCount : Nat) (allEdits : List EditByLinesItem) (originalIndexed : List Char) :
    List EditByLinesItem → List Char → Except ToolError (List Char)
  | [], working => .ok working
  | e :: rest, working =>
    if e.startLine.getD 1 < 1 ∨ e.endLine.getD lineCount > lineCount
        ∨ e.startLine.getD 1 > e.endLine.getD lineCount then
      .error (.invalidRange lineCount)
    else
      match overlapError lineCount allEdits with
      | some err => .error err
      | none =>
        let frag := getContentFragment originalIndexed (e.startLine.getD 1) (e.endLine.getD lineCount)
          defaultFragmentOptions
        replaceLoop lineCount allEdits originalIndexed rest (replaceFirst working frag e.newContent)

/-- Embedding of the replace_file_blocks tool body: staleness check against
the declared line count, then the directive loop over the line-indexed
content, then the marker strip of the whole working buffer.  The external
streaming-state check is modelled under the host guarantee of at most one
in-flight patch per file; the disabled line-count re-verification inside the
loop has no effect and is omitted. -/
def replaceFileBlocks (content : List Char) (declared : Nat) (edits : List EditByLinesItem) :
    Except ToolError (List Char) :=
  if declared ≠ modelLineCount content then
    .error (.stale (modelLineCount content) declared)
  else
    let originalIndexed := addLineNumbers (modelGetValueLF content) defaultLineNumberOptions
    match replaceLoop (modelLineCount content) edits originalIndexed edits originalIndexed with
    | .error err => .error err
    | .ok working => .ok (removeFixedLineNumbers working)

/-- The file content after a replace_file_blocks call: the new content is
written only on success; any error leaves the file as it was. -/
def fileAfterReplace (content : List Char) (declared : Nat) (edits : List EditByLinesItem) :
    List Char :=
  match replaceFileBlocks content declared edits with
  | .ok newContent => newContent
  | .error _ => content

/-- The per-directive loop of the insert tool: each iteration checks the
anchor, takes the single anchor line of the original indexed text, appends
the new content before or after it (the branch for an empty original buffer
is immediately overwritten by this if-else and is therefore dead code), and
substitutes in the working buffer. -/
def insertLoop (lineCount : Nat) (originalIndexed : List Char) :
    List InsertFileBlocksItem → List Char → Except ToolError (List Char)
  | [], working => .ok working
  | e :: rest, working =>
    if e.line_index.getD 1 < 1 ∨ e.line_index.getD 1 > lineCount then
      .error (.invalidAnchor lineCount)
    else
      let frag := getContentFragment originalIndexed (e.line_index.getD 1) (e.line_index.getD 1)
        defaultFragmentOptions
      let appended :=
        if e.before_after = some BeforeAfter.before then e.new_content ++ '\n' :: frag
        else frag ++ '\n' :: e.new_content
      insertLoop lineCount originalIndexed rest (replaceFirst working frag appended)

/-- Embedding of the insert_file_blocks tool body, mirroring
replaceFileBlocks with the insertion loop. -/
def insertFileBlocks (content : List Char) (declared : Nat) (edits : List InsertFileBlocksItem) :
    Except ToolError (List Char) :=
  if declared ≠ modelLineCount content then
    .error (.stale (modelLineCount content) declared)
  else
    let originalIndexed := addLineNumbers (modelGetValueLF content) defaultLineNumberOptions
    match insertLoop (modelLineCount content) originalIndexed edits originalIndexed with
    | .error err => .error err
    | .ok working => .ok (removeFixedLineNumbers working)

/-- The file content after an insert_file_blocks call. -/
def fileAfterInsert (content : List Char) (declared : Nat) (edits : List InsertFileBlocksItem) :
    List Char :=
  match insertFileBlocks content declared edits with
  | .ok newContent => newContent
  | .error _ => content

/-- JavaScript word-character test, deciding the word-boundary assertion
after a tag name. -/
def isWordChar (c : Char) : Bool := c.isAlphanum || c = '_'

/-- Case-insensitive literal prefix test; the pattern is given in lower
case, matching the case-insensitive flag on the source patterns. -/
def lcStartsWith : List Char → List Char → Bool
  | [], _ => true
  | _ :: _, [] => false
  | p :: ps, c :: cs => (c.toLower == p) && lcStartsWith ps cs

/-- Match an opening tag of the given name at the start of the text: angle
bracket, the name case-insensitively, a word boundary, any run of characters
other than the closing angle bracket (tolerated attributes), then the
closing angle bracket.  Returns the number of characters consumed. -/
def matchOpenTagNamed (name : List Char) (s : List Char) : Option Nat :=
  match s with
  | '<' :: rest =>
    if lcStartsWith name rest then
      match rest.drop name.length with
      | [] => none
      | c :: cs =>
        if isWordChar c then none
        else
          let attrs := (c :: cs).takeWhile (fun d => !(d == '>'))
          match (c :: cs).drop attrs.length with
          | '>' :: _ => some (1 + name.length + attrs.length + 1)
          | _ => none
    else none
  | _ => none

/-- Match a closing tag of the given name at the start of the text, with the
same tolerance for attributes as the opening form. -/
def matchCloseTagNamed (name : List Char) (s : List Char) : Option Nat :=
  match s with
  | '<' :: '/' :: rest =>
    if lcStartsWith name rest then
      match rest.drop name.length with
      | [] => none
      | c :: cs =>
        if isWordChar c then none
        else
          let attrs := (c :: cs).takeWhile (fun d => !(d == '>'))
          match (c :: cs).drop attrs.length with
          | '>' :: _ => some (2 + name.length + attrs.length + 1)
          | _ => none
    else none
  | _ => none

/-- Position of the first literal closing edit tag (case-insensitive); the
segment pattern uses the exact literal with no attribute tolerance. -/
def findCloseEdit : List Char → Option Nat
  | [] => none
  | c :: rest =>
    if lcStartsWith ("</edit>").toList (c :: rest) then some 0
    else (findCloseEdit rest).map (· + 1)

/-- Length of an edit segment starting exactly here, if any: a tolerant
opening edit tag followed by the shortest body that reaches a literal
closing edit tag. -/
def matchEditBlockAt (s : List Char) : Option Nat :=
  match matchOpenTagNamed ("edit").toList s with
  | none => none
  | some k1 =>
    match findCloseEdit (s.drop k1) with
    | none => none
    | some j => some (k1 + j + 7)

/-- All edit segments, scanning left to right and resuming after each match,
as the global segment search does.  Fuel equal to the text length suffices
because every step advances at least one character. -/
def findEditBlocksAux : Nat → List Char → List (List Char)
  | 0, _ => []
  | _ + 1, [] => []
  | fuel + 1, c :: rest =>
    match matchEditBlockAt (c :: rest) with
    | some len => (c :: rest).take len :: findEditBlocksAux fuel ((c :: rest).drop len)
    | none => findEditBlocksAux fuel rest

/-- All edit segments of a text. -/
def findEditBlocks (s : List Char) : List (List Char) := findEditBlocksAux s.length s

/-- The input cleanup both parsers perform: trim, then collapse a first
occurrence of an opening content tag followed by a newline and of a newline
followed by a closing content tag. -/
def cleanInput (s : List Char) : List Char :=
  replaceFirst
    (replaceFirst (jsTrim s) ("<new_content>\n").toList ("<new_content>").toList)
    ("\n</new_content>").toList ("</new_content>").toList

/-- Numeric value of a digit character. -/
def digitVal (c : Char) : Nat := c.toNat - 48

/-- Embedding of parseInt on a non-empty digit string. -/
def digitsToNat (ds : List Char) : Nat := ds.foldl (fun acc c => acc * 10 + digitVal c) 0

/-- Match the combined line-range field at the start of the text: tolerant
opening tag, digits, a colon, digits, tolerant closing tag. -/
def matchLineRangeAt (s : List Char) : Option (Nat × Nat) :=
  match matchOpenTagNamed ("original_line_range").toList s with
  | none => none
  | some k =>
    let t := s.drop k
    let d1 := t.takeWhile Char.isDigit
    if d1 = [] then none
    else
      match t.drop d1.length with
      | ':' :: t2 =>
        let d2 := t2.takeWhile Char.isDigit
        if d2 = [] then none
        else
          match matchCloseTagNamed ("original_line_range").toList (t2.drop d2.length) with
          | some _ => some (digitsToNat d1, digitsToNat d2)
          | none => none
      | _ => none

/-- First line-range field in a segment. -/
def findLineRange : List Char → Option (Nat × Nat)
  | [] => none
  | c :: rest =>
    match matchLineRangeAt (c :: rest) with
    | some p => some p
    | none => findLineRange rest

/-- Body of a content field: the shortest run of characters before a
tolerant closing content tag. -/
def scanNewContentClose : List Char → Option (List Char)
  | [] => none
  | c :: rest =>
    if (matchCloseTagNamed ("new_content").toList (c :: rest)).isSome then some []
    else (scanNewContentClose rest).map (fun l => c :: l)

/-- Match a content field at the start of the text. -/
def matchNewContentAt (s : List Char) : Option (List Char) :=
  match matchOpenTagNamed ("new_content").toList s with
  | none => none
  | some k => scanNewContentClose (s.drop k)

/-- First content field in a segment. -/
def findNewContent : List Char → Option (List Char)
  | [] => none
  | c :: rest =>
    match matchNewContentAt (c :: rest) with
    | some l => some l
    | none => findNewContent rest

/-- Match the insertion anchor field at the start of the text. -/
def matchInsertAfterAt (s : List Char) : Option Nat :=
  match matchOpenTagNamed ("insert_after_line").toList s with
  | none => none
  | some k =>
    let t := s.drop k
    let d1 := t.takeWhile Char.isDigit
    if d1 = [] then none
    else
      match matchCloseTagNamed ("insert_after_line").toList (t.drop d1.length) with
      | some _ => some (digitsToNat d1)
      | none => none

/-- First insertion anchor field in a segment. -/
def findInsertAfter : List Char → Option Nat
  | [] => none
  | c :: rest =>
    match matchInsertAfterAt (c :: rest) with
    | some n => some n
    | none => findInsertAfter rest

/-- Unicode code point thirty-nine, the apostrophe. -/
def aposC : Char := Char.ofNat 39

/-- Embedding of unescapeXml: the chain of global replacements in source
order.  The first two replace a character by itself and are kept as written;
the numeric references for newline and carriage return are matched without a
trailing semicolon, exactly as in the source. -/
def unescapeXml (xml : List Char) : List Char :=
  let s1 := replaceAll xml ("<").toList ("<").toList
  let s2 := replaceAll s1 (">").toList (">").toList
  let s3 := replaceAll s2 ("&amp;").toList ("&").toList
  let s4 := replaceAll s3 ("&quot;").toList ("\"").toList
  let s5 := replaceAll s4 (("&apos").toList ++ [';']) [aposC]
  let s6 := replaceAll s5 ("&lt;").toList ("<").toList
  let s7 := replaceAll s6 ("&gt;").toList (">").toList
  let s8 := replaceAll s7 ("&#10").toList ("\n").toList
  let s9 := replaceAll s8 ("&#13").toList ("\r").toList
  let s10 := replaceAll s9 (("&#x27").toList ++ [';']) [aposC]
  replaceAll s10 ("&#x9;").toList ("\t").toList

/-- Strip any leading and trailing newline runs, as the parsers do to each
extracted content field. -/
def trimNl (s : List Char) : List Char :=
  ((s.dropWhile (fun c => c == '\n')).reverse.dropWhile (fun c => c == '\n')).reverse

/-- Parse one edit segment of the range-replace dialect: the line-range
field is required, the content field defaults to empty, is unescaped and
then trimmed of surrounding newline runs. -/
def parseEditBlock (i : Nat) (cleaned block : List Char) : Except ToolError EditByLinesItem :=
  match findLineRange block with
  | none => .error (.parseMissingRange i block cleaned)
  | some (s, e) =>
    let nc := match findNewContent block with
      | some raw => unescapeXml raw
      | none => []
    .ok ⟨some s, some e, trimNl nc⟩

/-- The segment loop of parseRawEdits, failing at the first bad segment. -/
def parseEditBlocksLoop (cleaned : List Char) : Nat → List (List Char) →
    Except ToolError (List EditByLinesItem)
  | _, [] => .ok []
  | i, b :: rest =>
    match parseEditBlock i cleaned b with
    | .error err => .error err
    | .ok e =>
      match parseEditBlocksLoop cleaned (i + 1) rest with
      | .error err => .error err
      | .ok tail => .ok (e :: tail)

/-- Embedding of parseRawEdits: clean the input, extract the edit segments,
fail when none is found (attaching the cleaned input to the message), else
parse each segment in order. -/
def parseRawEdits (xmlString : List Char) : Except ToolError (List EditByLinesItem) :=
  let cleaned := cleanInput xmlString
  let blocks := findEditBlocks cleaned
  if blocks = [] then .error (.parseNoEditTags cleaned)
  else parseEditBlocksLoop cleaned 0 blocks

/-- Parse one edit segment of the anchored-insert dialect: the anchor field
is required and is stored as insert_after_line. -/
def parseInsertBlock (i : Nat) (cleaned block : List Char) : Except ToolError ParsedInsertItem :=
  match findInsertAfter block with
  | none => .error (.parseMissingLineIndex i block cleaned)
  | some n =>
    let nc := match findNewContent block with
      | some raw => unescapeXml raw
      | none => []
    .ok ⟨n, trimNl nc⟩

/-- The segment loop of parseRawInsertFileBlocks. -/
def parseInsertBlocksLoop (cleaned : List Char) : Nat → List (List Char) →
    Except ToolError (List ParsedInsertItem)
  | _, [] => .ok []
  | i, b :: rest =>
    match parseInsertBlock i cleaned b with
    | .error err => .error err
    | .ok e =>
      match parseInsertBlocksLoop cleaned (i + 1) rest with
      | .error err => .error err
      | .ok tail => .ok (e :: tail)

/-- Embedding of parseRawInsertFileBlocks. -/
def parseRawInsertFileBlocks (xmlString : List Char) : Except ToolError (List ParsedInsertItem) :=
  let cleaned := cleanInput xmlString
  let blocks := findEditBlocks cleaned
  if blocks = [] then .error (.parseNoEditTagsIns cleaned)
  else parseInsertBlocksLoop cleaned 0 blocks

/-- The parsed insertion items carry their anchor in insert_after_line and
have no line_index field, so the validator reading line_index on them gets
the absent value. -/
def ParsedInsertItem.lineIndexField (_ : ParsedInsertItem) : Option Nat := none

/-- The parsed insertion items likewise have no before_after field. -/
def ParsedInsertItem.beforeAfterField (_ : ParsedInsertItem) : Option BeforeAfter := none

/-- Embedding of validateNumber for an optional numeric value: a present
number passes through and an absent value yields the default. -/
def validateNumberOpt (v : Option Nat) (dflt : Option Nat) : Option Nat :=
  match v with
  | some n => some n
  | none => dflt

/-- The per-item step of the insert_file_blocks parameter validator: it
reads line_index off the parsed item with default zero, then replaces any
value below one by one, copies before_after, and unescapes the content once
more. -/
def validateOneInsert (e : ParsedInsertItem) : InsertFileBlocksItem :=
  let sl := validateNumberOpt (ParsedInsertItem.lineIndexField e) (some 0)
  let li := match sl with
    | some n => if 1 ≤ n then n else 1
    | none => 1
  ⟨some li, ParsedInsertItem.beforeAfterField e, unescapeXml e.new_content⟩

/-- The insert_file_blocks parameter validator over the parsed batch:
failing on an empty batch, mapping validateOneInsert otherwise. -/
def validateInsertBatch (items : List ParsedInsertItem) :
    Except ToolError (List InsertFileBlocksItem) :=
  if items = [] then .error .noInsertions
  else .ok (items.map validateOneInsert)

/-- Whether a tool result is the overlap error. -/
def isOverlapResult : Except ToolError (List Char) → Bool
  | .error (.overlap _ _ _ _ _ _) => true
  | _ => false

/-- Whether a tool result is the out-of-bounds range error. -/
def isRangeErrorResult : Except ToolError (List Char) → Bool
  | .error (.invalidRange _) => true
  | _ => false

/-- The bounds condition of the first directive in submission order; the
replace loop checks it before the overlap scan ever runs. -/
def headRangeOk (lineCount : Nat) : List EditByLinesItem → Bool
  | [] => true
  | e :: _ => rangeOk lineCount e

/-- A five-line demonstration file. -/
def demoFive : List Char := ("l1\nl2\nl3\nl4\nl5\n").toList

/-- An eight-line demonstration file. -/
def demoEight : List Char := ("l1\nl2\nl3\nl4\nl5\nl6\nl7\nl8\n").toList

/-! Foundational lemmas about the string primitives. -/

theorem splitSep_ne_nil (sep : Char) (l : List Char) : splitSep sep l ≠ [] := by
  cases l with
  | nil => simp [splitSep]
  | cons c rest =>
    simp only [splitSep]
    split <;> simp

theorem splitSep_cons_self (sep : Char) (rest : List Char) :
    splitSep sep (sep :: rest) = [] :: splitSep sep rest := by
  simp [splitSep]

theorem splitSep_cons_ne (sep c : Char) (rest : List Char) (h : ¬ c = sep) :
    splitSep sep (c :: rest) = (c :: (splitSep sep rest).headI) :: (splitSep sep rest).tail := by
  simp [splitSep, h]

theorem splitSep_eq_single (sep : Char) (l : List Char) (h : sep ∉ l) : splitSep sep l = [l] := by
  induction l with
  | nil => simp [splitSep]
  | cons c rest ih =>
    have hc : ¬ c = sep := by
      intro e
      exact h (by simp [e])
    have hr : sep ∉ rest := fun m => h (List.mem_cons_of_mem _ m)
    simp [splitSep, hc, ih hr]

theorem joinSep_splitSep (sep : Char) (l : List Char) : joinSep sep (splitSep sep l) = l := by
  induction l with
  | nil => simp [splitSep, joinSep]
  | cons c rest ih =>
    by_cases hc : c = sep
    · subst hc
      simp only [splitSep, if_pos rfl]
      cases hs : splitSep c rest with
      | nil => exact absurd hs (splitSep_ne_nil _ _)
      | cons p ps =>
        rw [hs] at ih
        simp [joinSep, ih]
    · simp only [splitSep, if_neg hc]
      cases hs : splitSep sep rest with
      | nil => exact absurd hs (splitSep_ne_nil _ _)
      | cons p ps =>
        rw [hs] at ih
        cases ps with
        | nil =>
          simp only [joinSep] at ih
          simp [joinSep, List.headI, ih]
        | cons q qs =>
          simp only [joinSep] at ih
          simp [joinSep, List.headI, ← ih]

theorem splitSep_append (sep : Char) (p t : List Char) (h : sep ∉ p) :
    splitSep sep (p ++ sep :: t) = p :: splitSep sep t := by
  induction p with
  | nil => simp [splitSep]
  | cons c cs ih =>
    have hc : ¬ c = sep := by
      intro e
      exact h (by simp [e])
    have hcs : sep ∉ cs := fun m => h (List.mem_cons_of_mem _ m)
    simp [splitSep, hc, ih hcs]

theorem splitSep_joinSep (sep : Char) (ps : List (List Char)) (hne : ps ≠ [])
    (h : ∀ p ∈ ps, sep ∉ p) : splitSep sep (joinSep sep ps) = ps := by
  induction ps with
  | nil => exact absurd rfl hne
  | cons p ps ih =>
    cases ps with
    | nil =>
      simpa [joinSep] using splitSep_eq_single sep p (h p (by simp))
    | cons q qs =>
      have h1 : sep ∉ p := h p (by simp)
      have hrec := ih (by simp) (fun r hr => h r (by simp [hr]))
      calc splitSep sep (joinSep sep (p :: q :: qs))
          = splitSep sep (p ++ sep :: joinSep sep (q :: qs)) := rfl
        _ = p :: splitSep sep (joinSep sep (q :: qs)) := splitSep_append sep p _ h1
        _ = p :: q :: qs := by rw [hrec]

theorem not_sep_of_mem_splitSep (sep : Char) (l : List Char) :
    ∀ p ∈ splitSep sep l, sep ∉ p := by
  induction l with
  | nil =>
    intro p hp
    simp [splitSep] at hp
    simp [hp]
  | cons c rest ih =>
    intro p hp
    cases hs : splitSep sep rest with
    | nil => exact absurd hs (splitSep_ne_nil _ _)
    | cons q qs =>
      by_cases hc : c = sep
      · subst hc
        simp [splitSep, hs] at hp
        rcases hp with hp | hp | hp
        · simp [hp]
        · exact ih p (by simp [hs, hp])
        · exact ih p (by simp [hs, hp])
      · simp [splitSep, hc, hs] at hp
        rcases hp with hp | hp
        · subst hp
          intro hm
          rcases List.mem_cons.mp hm with he | hm
          · exact hc he.symm
          · exact ih q (by simp [hs]) hm
        · exact ih p (by simp [hs, hp])

theorem mem_of_mem_splitSep (sep : Char) (l : List Char) :
    ∀ p ∈ splitSep sep l, ∀ c ∈ p, c ∈ l := by
  induction l with
  | nil =>
    intro p hp c hc
    simp [splitSep] at hp
    subst hp
    simp at hc
  | cons a rest ih =>
    intro p hp c hc
    cases hs : splitSep sep rest with
    | nil => exact absurd hs (splitSep_ne_nil _ _)
    | cons q qs =>
      by_cases ha : a = sep
      · subst ha
        simp [splitSep, hs] at hp
        rcases hp with hp | hp | hp
        · subst hp; simp at hc
        · exact List.mem_cons_of_mem _ (ih p (by simp [hs, hp]) c hc)
        · exact List.mem_cons_of_mem _ (ih p (by simp [hs, hp]) c hc)
      · simp [splitSep, ha, hs] at hp
        rcases hp with hp | hp
        · subst hp
          rcases List.mem_cons.mp hc with he | hm
          · simp [he]
          · exact List.mem_cons_of_mem _ (ih q (by simp [hs]) c hm)
        · exact List.mem_cons_of_mem _ (ih p (by simp [hs, hp]) c hc)

theorem getLast?_cons_of_ne_nil {α : Type} (a : α) (l : List α) (h : l ≠ []) :
    (a :: l).getLast? = l.getLast? := by
  cases l with
  | nil => exact absurd rfl h
  | cons b bs => exact List.getLast?_cons_cons

theorem joinSep_cons_ne_nil (sep : Char) (p : List Char) (ps : List (List Char)) (h : p ≠ []) :
    joinSep sep (p :: ps) ≠ [] := by
  cases ps with
  | nil => simpa [joinSep] using h
  | cons q qs => simp [joinSep, h]

theorem normalizeEol_eq_self (l : List Char) (h : '\r' ∉ l) : normalizeEol l = l := by
  induction l using normalizeEol.induct with
  | case1 => rfl
  | case2 c => rfl
  | case3 c1 c2 rest hc ih =>
    exact absurd (by simp [hc.1]) h
  | case4 c1 c2 rest hc ih =>
    have h2 : '\r' ∉ c2 :: rest := fun m => h (List.mem_cons_of_mem _ m)
    simp only [normalizeEol, if_neg hc]
    rw [ih h2]

theorem normalizeEol_nil_iff (l : List Char) : normalizeEol l = [] ↔ l = [] := by
  cases l with
  | nil => simp [normalizeEol]
  | cons c1 rest =>
    cases rest with
    | nil => simp [normalizeEol]
    | cons c2 rest2 =>
      simp only [normalizeEol]
      split <;> simp

theorem splitSep_norm (u : List Char) :
    (splitSep '\n' (normalizeEol u)).length = (splitSep '\n' u).length ∧
    (splitSep '\n' (normalizeEol u)).getLast? = (splitSep '\n' u).getLast? := by
  induction u using normalizeEol.induct with
  | case1 => exact ⟨rfl, rfl⟩
  | case2 c => exact ⟨rfl, rfl⟩
  | case3 c1 c2 rest hc ih =>
    obtain ⟨hc1, hc2⟩ := hc
    subst hc1
    subst hc2
    have hcr : ('\r' : Char) ≠ '\n' := by decide
    have hstep : normalizeEol ('\r' :: '\n' :: rest) = '\n' :: normalizeEol rest := by
      simp [normalizeEol]
    have hsplitL : splitSep '\n' ('\n' :: normalizeEol rest) = [] :: splitSep '\n' (normalizeEol rest) :=
      splitSep_cons_self _ _
    have hsplitR : splitSep '\n' ('\r' :: '\n' :: rest) = ['\r'] :: splitSep '\n' rest := by
      rw [splitSep_cons_ne _ _ _ hcr, splitSep_cons_self]
      rfl
    constructor
    · rw [hstep, hsplitL, hsplitR]
      simp [ih.1]
    · rw [hstep, hsplitL, hsplitR,
        getLast?_cons_of_ne_nil _ _ (splitSep_ne_nil _ _),
        getLast?_cons_of_ne_nil _ _ (splitSep_ne_nil _ _)]
      exact ih.2
  | case4 c1 c2 rest hc ih =>
    have hstep : normalizeEol (c1 :: c2 :: rest) = c1 :: normalizeEol (c2 :: rest) := by
      simp [normalizeEol, hc]
    by_cases h1 : c1 = '\n'
    · subst h1
      have hL : splitSep '\n' ('\n' :: normalizeEol (c2 :: rest)) =
          [] :: splitSep '\n' (normalizeEol (c2 :: rest)) := by simp [splitSep]
      have hR : splitSep '\n' ('\n' :: c2 :: rest) = [] :: splitSep '\n' (c2 :: rest) := by
        simp [splitSep]
      constructor
      · rw [hstep, hL, hR]; simp [ih.1]
      · rw [hstep, hL, hR,
          getLast?_cons_of_ne_nil _ _ (splitSep_ne_nil _ _),
          getLast?_cons_of_ne_nil _ _ (splitSep_ne_nil _ _)]
        exact ih.2
    · cases hX : splitSep '\n' (normalizeEol (c2 :: rest)) with
      | nil => exact absurd hX (splitSep_ne_nil _ _)
      | cons x xs =>
        cases hY : splitSep '\n' (c2 :: rest) with
        | nil => exact absurd hY (splitSep_ne_nil _ _)
        | cons y ys =>
          have hL : splitSep '\n' (c1 :: normalizeEol (c2 :: rest)) = (c1 :: x) :: xs := by
            rw [splitSep_cons_ne _ _ _ h1, hX]
            rfl
          have hR : splitSep '\n' (c1 :: c2 :: rest) = (c1 :: y) :: ys := by
            rw [splitSep_cons_ne _ _ _ h1, hY]
            rfl
          have hlen : xs.length = ys.length := by
            have := ih.1
            rw [hX, hY] at this
            simpa using this
          have hlast := ih.2
          rw [hX, hY] at hlast
          constructor
          · rw [hstep, hL, hR]; simp [hlen]
          · rw [hstep, hL, hR]
            cases xs with
            | nil =>
              cases ys with
              | nil =>
                simp only [List.getLast?_singleton] at hlast ⊢
                simp only [Option.some.injEq] at hlast
                rw [hlast]
              | cons y2 ys2 => simp at hlen
            | cons x2 xs2 =>
              cases ys with
              | nil => simp at hlen
              | cons y2 ys2 =>
                rw [List.getLast?_cons_cons, List.getLast?_cons_cons] at hlast ⊢
                exact hlast

theorem isPrefixOf_append_self (l t : List Char) : l.isPrefixOf (l ++ t) = true := by
  induction l with
  | nil => simp [List.isPrefixOf]
  | cons c cs ih => simp [List.isPrefixOf, ih]

theorem containsSeg_of_decomp (x pre post s : List Char) (h : s = pre ++ x ++ post) :
    containsSeg x s = true := by
  subst h
  induction pre with
  | nil =>
    cases x with
    | nil => cases post <;> simp [containsSeg, List.isPrefixOf]
    | cons a as =>
      have hpre : (a :: as).isPrefixOf (a :: (as ++ post)) = true :=
        isPrefixOf_append_self (a :: as) post
      simp [containsSeg, hpre]
  | cons p ps ih =>
    show containsSeg x (p :: (ps ++ x ++ post)) = true
    rw [containsSeg, ih]
    simp

/-! Lemmas about digits and line markers, for the round-trip theorem. -/

theorem digitChar_isDigit (m : Nat) : (digitChar m).isDigit = true := by
  match m with
  | 0 | 1 | 2 | 3 | 4 | 5 | 6 | 7 | 8 | 9 => decide
  | n + 10 => exact (by decide : ('0').isDigit = true)

theorem natDigitsAux_digits (fuel n : Nat) : ∀ c ∈ natDigitsAux fuel n, c.isDigit = true := by
  induction fuel generalizing n with
  | zero => intro c hc; simp [natDigitsAux] at hc
  | succ fuel ih =>
    intro c hc
    simp only [natDigitsAux] at hc
    split at hc
    · simp at hc
      simp [hc, digitChar_isDigit]
    · simp at hc
      rcases hc with hc | hc
      · exact ih _ c hc
      · simp [hc, digitChar_isDigit]

theorem natDigits_digits (n : Nat) : ∀ c ∈ natDigits n, c.isDigit = true :=
  natDigitsAux_digits (n + 1) n

theorem natDigitsAux_ne_nil (fuel n : Nat) (h : 1 ≤ fuel) : natDigitsAux fuel n ≠ [] := by
  cases fuel with
  | zero => omega
  | succ fuel =>
    simp only [natDigitsAux]
    split <;> simp

theorem natDigits_ne_nil (n : Nat) : natDigits n ≠ [] :=
  natDigitsAux_ne_nil (n + 1) n (by omega)

theorem markDigits_digits (pad n : Nat) : ∀ c ∈ padZeros pad (natDigits n), c.isDigit = true := by
  intro c hc
  simp only [padZeros, List.mem_append] at hc
  rcases hc with hc | hc
  · have := List.eq_of_mem_replicate hc
    simp [this]
  · exact natDigits_digits n c hc

theorem markDigits_ne_nil (pad n : Nat) : padZeros pad (natDigits n) ≠ [] := by
  simp only [padZeros]
  intro h
  rcases List.append_eq_nil.mp h with ⟨_, h2⟩
  exact natDigits_ne_nil n h2

theorem takeWhile_append_stop (p : Char → Bool) (ds : List Char) (x : Char) (l : List Char)
    (hds : ∀ c ∈ ds, p c = true) (hx : p x = false) :
    (ds ++ x :: l).takeWhile p = ds := by
  induction ds with
  | nil => simp [List.takeWhile, hx]
  | cons d ds ih =>
    have hd : p d = true := hds d (by simp)
    show List.takeWhile p (d :: (ds ++ x :: l)) = d :: ds
    rw [List.takeWhile_cons_of_pos hd, ih (fun c hc => hds c (by simp [hc]))]

theorem stripMark_lineMark (pad n : Nat) (l : List Char) :
    stripMark (lineMark pad n ++ l) = l := by
  have hds := markDigits_digits pad n
  have hne := markDigits_ne_nil pad n
  have hbr : (']' : Char).isDigit = false := by decide
  have htake : ((padZeros pad (natDigits n) ++ [']']) ++ l).takeWhile Char.isDigit
      = padZeros pad (natDigits n) := by
    rw [List.append_assoc, List.singleton_append]
    exact takeWhile_append_stop _ _ _ _ hds hbr
  have hdrop : ((padZeros pad (natDigits n) ++ [']']) ++ l).drop (padZeros pad (natDigits n)).length
      = ']' :: l := by
    rw [List.append_assoc, List.singleton_append, List.drop_left]
  show stripMark ('[' :: ((padZeros pad (natDigits n) ++ [']']) ++ l)) = l
  simp only [stripMark, htake, hdrop, hne]
  simp [hne]

theorem mem_lineMark (pad n : Nat) (c : Char) (hc : c ∈ lineMark pad n) :
    c = '[' ∨ c.isDigit = true ∨ c = ']' := by
  simp only [lineMark, List.mem_cons, List.mem_append, List.mem_singleton] at hc
  rcases hc with hc | hc | hc
  · exact Or.inl hc
  · exact Or.inr (Or.inl (markDigits_digits pad n c hc))
  · simp at hc
    exact Or.inr (Or.inr hc)

theorem newline_not_mem_lineMark (pad n : Nat) : '\n' ∉ lineMark pad n := by
  intro h
  rcases mem_lineMark pad n _ h with h | h | h <;> simp at h

theorem creturn_not_mem_lineMark (pad n : Nat) : '\r' ∉ lineMark pad n := by
  intro h
  rcases mem_lineMark pad n _ h with h | h | h <;> simp at h

theorem numberLines_eq_addMarks (pad : Nat) (n : Nat) (ls : List (List Char))
    (h : marksFree pad n ls = true) : numberLines pad false n ls = addMarks pad n ls := by
  induction ls generalizing n with
  | nil => rfl
  | cons line rest ih =>
    simp only [marksFree, Bool.and_eq_true, Bool.not_eq_true'] at h
    rw [numberLines, addMarks, ih (n + 1) h.2]
    simp [h.1]

theorem stripPiece_mark_line (pad n : Nat) (l : List Char) (hl : '\r' ∉ l) :
    stripPiece (lineMark pad n ++ l) = l := by
  have hmem : '\r' ∉ lineMark pad n ++ l := by
    intro h
    rcases List.mem_append.mp h with h | h
    · exact creturn_not_mem_lineMark pad n h
    · exact hl h
  show joinSep '\r' ((splitSep '\r' (lineMark pad n ++ l)).map stripMark) = l
  rw [splitSep_eq_single _ _ hmem]
  simp only [List.map_cons, List.map_nil]
  rw [stripMark_lineMark]
  rfl

theorem addMarks_map_stripPiece (pad : Nat) (n : Nat) (ls : List (List Char))
    (h : ∀ p ∈ ls, '\r' ∉ p) : (addMarks pad n ls).map stripPiece = ls := by
  induction ls generalizing n with
  | nil => rfl
  | cons line rest ih =>
    simp only [addMarks, List.map]
    rw [stripPiece_mark_line pad n line (h line (by simp)),
      ih (n + 1) (fun p hp => h p (by simp [hp]))]

theorem addMarks_ne_nil (pad n : Nat) (ls : List (List Char)) (h : ls ≠ []) :
    addMarks pad n ls ≠ [] := by
  cases ls with
  | nil => exact absurd rfl h
  | cons l rest => simp [addMarks]

theorem addMarks_no_newline (pad n : Nat) (ls : List (List Char))
    (h : ∀ p ∈ ls, '\n' ∉ p) : ∀ p ∈ addMarks pad n ls, '\n' ∉ p := by
  induction ls generalizing n with
  | nil => intro p hp; simp [addMarks] at hp
  | cons line rest ih =>
    intro p hp
    simp only [addMarks, List.mem_cons] at hp
    rcases hp with hp | hp
    · subst hp
      intro hm
      rcases List.mem_append.mp hm with hm | hm
      · exact newline_not_mem_lineMark pad n hm
      · exact h line (by simp) hm
    · exact ih (n + 1) (fun p hp => h p (by simp [hp])) p hp

/-! The universal part of the line-counting claim. -/

theorem getLineCount_normalizeEol (u : List Char) :
    getLineCount (normalizeEol u) = getLineCount u := by
  by_cases hu : u = []
  · subst hu; rfl
  · have hn : normalizeEol u ≠ [] := by
      rw [Ne, normalizeEol_nil_iff]
      exact hu
    obtain ⟨h1, h2⟩ := splitSep_norm (normalizeEol u)
    simp only [getLineCount, if_neg hn, if_neg hu]
    rw [h1, h2]

theorem noBareCR_normalizeEol (l : List Char) :
    noBareCR l = true → '\r' ∉ normalizeEol l := by
  induction l using normalizeEol.induct with
  | case1 =>
    intro _ hmem
    simp [normalizeEol] at hmem
  | case2 c =>
    intro h hmem
    simp only [normalizeEol, List.mem_singleton] at hmem
    simp only [noBareCR, Bool.not_eq_true', beq_eq_false_iff_ne] at h
    exact h hmem.symm
  | case3 c1 c2 rest hc ih =>
    obtain ⟨h1, h2⟩ := hc
    subst h1
    subst h2
    intro h hmem
    have hrest : noBareCR rest = true := by
      simpa [noBareCR] using h
    have hn : normalizeEol ('\r' :: '\n' :: rest) = '\n' :: normalizeEol rest := by
      simp [normalizeEol]
    rw [hn, List.mem_cons] at hmem
    rcases hmem with hmem | hmem
    · exact absurd hmem (by decide)
    · exact ih hrest hmem
  | case4 c1 c2 rest hc ih =>
    intro h hmem
    by_cases hc1 : c1 = '\r'
    · have hc2 : ¬ c2 = '\n' := fun h2 => hc ⟨hc1, h2⟩
      subst hc1
      simp [noBareCR, hc2] at h
    · have hrest : noBareCR (c2 :: rest) = true := by
        simpa [noBareCR, hc1] using h
      simp only [normalizeEol, if_neg hc, List.mem_cons] at hmem
      rcases hmem with hmem | hmem
      · exact hc1 hmem.symm
      · exact ih hrest hmem

/-- C2 (amended): stripping line numbers after adding them reproduces the
input up to line-ending normalization, for every input that contains no bare
carriage return (every carriage return is part of a carriage-return
line-feed pair, which normalization rewrites to a line feed) and in which no
line of the normalized input already begins with the exact bracketed
zero-padded marker expected at its position; a line that does begin with its
expected marker is left unnumbered by addLineNumbers and the strip then
removes that pre-existing marker, so the unrestricted round trip fails (see
the counterexample). -/
theorem c2_roundtrip_after_numbering (T : List Char) (hr : noBareCR T = true)
    (hm : marksFree (natDigits (splitSep '\n' (normalizeEol T)).length).length 1
        (splitSep '\n' (normalizeEol T)) = true) :
    removeFixedLineNumbers (addLineNumbers T defaultLineNumberOptions) = normalizeEol T := by
  by_cases hT : T = []
  · subst hT
    rfl
  · have hNcr : '\r' ∉ normalizeEol T := noBareCR_normalizeEol T hr
    have hlinesne : splitSep '\n' (normalizeEol T) ≠ [] := splitSep_ne_nil _ _
    have hnonl : ∀ p ∈ splitSep '\n' (normalizeEol T), '\n' ∉ p :=
      not_sep_of_mem_splitSep '\n' (normalizeEol T)
    have hnocr : ∀ p ∈ splitSep '\n' (normalizeEol T), '\r' ∉ p := by
      intro p hp hmem
      exact hNcr (mem_of_mem_splitSep '\n' (normalizeEol T) p hp '\r' hmem)
    have hadd : addLineNumbers T defaultLineNumberOptions
        = joinSep '\n'
            (addMarks (natDigits (splitSep '\n' (normalizeEol T)).length).length 1
              (splitSep '\n' (normalizeEol T))) := by
      simp only [addLineNumbers, if_neg hT, defaultLineNumberOptions, Option.getD]
      rw [show (1 : Nat) + (splitSep '\n' (normalizeEol T)).length - 1
          = (splitSep '\n' (normalizeEol T)).length by omega]
      rw [numberLines_eq_addMarks _ _ _ hm]
    obtain ⟨l0, ls, hsplit⟩ : ∃ l0 ls, splitSep '\n' (normalizeEol T) = l0 :: ls := by
      cases h : splitSep '\n' (normalizeEol T) with
      | nil => exact absurd h hlinesne
      | cons a b => exact ⟨a, b, rfl⟩
    have hmarksne : addMarks (natDigits (splitSep '\n' (normalizeEol T)).length).length 1
        (splitSep '\n' (normalizeEol T)) ≠ [] :=
      addMarks_ne_nil _ _ _ hlinesne
    have hjoined_ne :
        joinSep '\n' (addMarks (natDigits (splitSep '\n' (normalizeEol T)).length).length 1
          (splitSep '\n' (normalizeEol T))) ≠ [] := by
      rw [hsplit]
      exact joinSep_cons_ne_nil _ _ _ (by simp [addMarks, lineMark])
    rw [hadd]
    simp only [removeFixedLineNumbers, if_neg hjoined_ne]
    rw [splitSep_joinSep _ _ hmarksne (addMarks_no_newline _ _ _ hnonl),
      addMarks_map_stripPiece _ _ _ hnocr]
    exact joinSep_splitSep '\n' (normalizeEol T)

/-- C2 counterexample: on the one-line text that already begins with the
marker expected for line one, addLineNumbers leaves the line unchanged and
the strip then removes the pre-existing marker, so the round trip does not
reproduce the normalized input. -/
theorem c2_roundtrip_counterexample :
    removeFixedLineNumbers (addLineNumbers ("[1]a").toList defaultLineNumberOptions)
      ≠ normalizeEol ("[1]a").toList := by decide

/-- C2 witness: the amended round trip at a concrete three-line text whose
first line ending is a carriage-return line-feed pair, exercising the
normalization half of the round trip. -/
theorem c2_roundtrip_after_numbering_witness :
    noBareCR (("a\r\nhello\nworld").toList) = true
    ∧ marksFree
        (natDigits (splitSep '\n' (normalizeEol (("a\r\nhello\nworld").toList))).length).length 1
        (splitSep '\n' (normalizeEol (("a\r\nhello\nworld").toList))) = true
    ∧ removeFixedLineNumbers
        (addLineNumbers (("a\r\nhello\nworld").toList) defaultLineNumberOptions)
        = normalizeEol (("a\r\nhello\nworld").toList) :=
  ⟨by decide, by decide, c2_roundtrip_after_numbering _ (by decide) (by decide)⟩

/-- C8: getLineCount gives zero for the empty text, one for a single line,
two for two lines, and two for two lines with a trailing newline (no phantom
final line), and carriage-return/line-feed pairs are normalized before
counting, so the count of any text equals the count of its normalized
form. -/
theorem c8_line_counting :
    getLineCount ([] : List Char) = 0
    ∧ getLineCount ("a").toList = 1
    ∧ getLineCount ("a\nb").toList = 2
    ∧ getLineCount ("a\nb\n").toList = 2
    ∧ ∀ T : List Char, getLineCount T = getLineCount (normalizeEol T) :=
  ⟨rfl, by decide, by decide, by decide, fun T => (getLineCount_normalizeEol T).symm⟩

/-! Lemmas about the directive loops of the two edit tools. -/

theorem rangeOk_not_cond (lineCount : Nat) (e : EditByLinesItem)
    (he : rangeOk lineCount e = true) :
    ¬ (e.startLine.getD 1 < 1 ∨ e.endLine.getD lineCount > lineCount
        ∨ e.startLine.getD 1 > e.endLine.getD lineCount) := by
  intro hc
  have hf : rangeOk lineCount e = false := by
    simp only [rangeOk, if_pos hc]
  rw [he] at hf
  exact absurd hf (by decide)

theorem rangeOk_cond (lineCount : Nat) (e : EditByLinesItem)
    (he : rangeOk lineCount e = false) :
    e.startLine.getD 1 < 1 ∨ e.endLine.getD lineCount > lineCount
        ∨ e.startLine.getD 1 > e.endLine.getD lineCount := by
  by_contra hc
  have ht : rangeOk lineCount e = true := by
    simp only [rangeOk, if_neg hc]
  rw [he] at ht
  exact absurd ht (by decide)

theorem anchorOk_not_cond (lineCount : Nat) (e : InsertFileBlocksItem)
    (he : anchorOk lineCount e = true) :
    ¬ (e.line_index.getD 1 < 1 ∨ e.line_index.getD 1 > lineCount) := by
  intro hc
  have hf : anchorOk lineCount e = false := by
    simp only [anchorOk, if_pos hc]
  rw [he] at hf
  exact absurd hf (by decide)

theorem anchorOk_cond (lineCount : Nat) (e : InsertFileBlocksItem)
    (he : anchorOk lineCount e = false) :
    e.line_index.getD 1 < 1 ∨ e.line_index.getD 1 > lineCount := by
  by_contra hc
  have ht : anchorOk lineCount e = true := by
    simp only [anchorOk, if_neg hc]
  rw [he] at ht
  exact absurd ht (by decide)

theorem replaceLoop_ok_of_valid (lineCount : Nat) (allEdits : List EditByLinesItem)
    (orig : List Char) (rem : List EditByLinesItem) (working : List Char)
    (hov : overlapError lineCount allEdits = none) :
    (∀ e ∈ rem, rangeOk lineCount e = true) →
    ∃ out, replaceLoop lineCount allEdits orig rem working = Except.ok out := by
  induction rem generalizing working with
  | nil => exact fun _ => ⟨working, rfl⟩
  | cons e rest ih =>
    intro hall
    have hcond := rangeOk_not_cond lineCount e (hall e (by simp))
    simp only [replaceLoop, if_neg hcond, hov]
    exact ih _ (fun e' he' => hall e' (by simp [he']))

theorem replaceLoop_err_invalid (lineCount : Nat) (allEdits : List EditByLinesItem)
    (orig : List Char) (rem : List EditByLinesItem) (working : List Char)
    (hov : overlapError lineCount allEdits = none) :
    (∃ e ∈ rem, rangeOk lineCount e = false) →
    replaceLoop lineCount allEdits orig rem working
      = Except.error (ToolError.invalidRange lineCount) := by
  induction rem generalizing working with
  | nil =>
    intro hviol
    simp at hviol
  | cons e rest ih =>
    intro hviol
    by_cases he : rangeOk lineCount e = true
    · have hcond := rangeOk_not_cond lineCount e he
      simp only [replaceLoop, if_neg hcond, hov]
      apply ih
      obtain ⟨e', he', hv⟩ := hviol
      rcases List.mem_cons.mp he' with h | h
      · subst h
        rw [he] at hv
        exact absurd hv (by decide)
      · exact ⟨e', h, hv⟩
    · have hcond := rangeOk_cond lineCount e (by simpa using he)
      simp only [replaceLoop, if_pos hcond]

theorem replaceLoop_err_of_viol (lineCount : Nat) (allEdits : List EditByLinesItem)
    (orig : List Char) (rem : List EditByLinesItem) (working : List Char)
    (hviol : ∃ e ∈ rem, rangeOk lineCount e = false) :
    ∃ err, replaceLoop lineCount allEdits orig rem working = Except.error err := by
  cases hov : overlapError lineCount allEdits with
  | none => exact ⟨_, replaceLoop_err_invalid lineCount allEdits orig rem working hov hviol⟩
  | some err =>
    cases rem with
    | nil => simp at hviol
    | cons e rest =>
      by_cases he : rangeOk lineCount e = true
      · have hcond := rangeOk_not_cond lineCount e he
        exact ⟨err, by simp only [replaceLoop, if_neg hcond, hov]⟩
      · have hcond := rangeOk_cond lineCount e (by simpa using he)
        exact ⟨ToolError.invalidRange lineCount, by simp only [replaceLoop, if_pos hcond]⟩

theorem insertLoop_err_of_viol (lineCount : Nat) (orig : List Char)
    (rem : List InsertFileBlocksItem) (working : List Char) :
    (∃ i ∈ rem, anchorOk lineCount i = false) →
    insertLoop lineCount orig rem working = Except.error (ToolError.invalidAnchor lineCount) := by
  induction rem generalizing working with
  | nil =>
    intro hviol
    simp at hviol
  | cons e rest ih =>
    intro hviol
    by_cases he : anchorOk lineCount e = true
    · have hcond := anchorOk_not_cond lineCount e he
      simp only [insertLoop, if_neg hcond]
      apply ih
      obtain ⟨e', he', hv⟩ := hviol
      rcases List.mem_cons.mp he' with h | h
      · subst h
        rw [he] at hv
        exact absurd hv (by decide)
      · exact ⟨e', h, hv⟩
    · have hcond := anchorOk_cond lineCount e (by simpa using he)
      simp only [insertLoop, if_pos hcond]

theorem replaceFileBlocks_fresh (content : List Char) (edits : List EditByLinesItem) :
    replaceFileBlocks content (modelLineCount content) edits
      = match replaceLoop (modelLineCount content) edits
          (addLineNumbers (modelGetValueLF content) defaultLineNumberOptions) edits
          (addLineNumbers (modelGetValueLF content) defaultLineNumberOptions) with
        | .error err => .error err
        | .ok working => .ok (removeFixedLineNumbers working) := by
  simp [replaceFileBlocks]

theorem insertFileBlocks_fresh (content : List Char) (edits : List InsertFileBlocksItem) :
    insertFileBlocks content (modelLineCount content) edits
      = match insertLoop (modelLineCount content)
          (addLineNumbers (modelGetValueLF content) defaultLineNumberOptions) edits
          (addLineNumbers (modelGetValueLF content) defaultLineNumberOptions) with
        | .error err => .error err
        | .ok working => .ok (removeFixedLineNumbers working) := by
  simp [insertFileBlocks]

theorem fileAfterReplace_of_error (content : List Char) (declared : Nat)
    (edits : List EditByLinesItem) (err : ToolError)
    (h : replaceFileBlocks content declared edits = Except.error err) :
    fileAfterReplace content declared edits = content := by
  simp [fileAfterReplace, h]

theorem fileAfterInsert_of_error (content : List Char) (declared : Nat)
    (edits : List InsertFileBlocksItem) (err : ToolError)
    (h : insertFileBlocks content declared edits = Except.error err) :
    fileAfterInsert content declared edits = content := by
  simp [fileAfterInsert, h]

/-- C1: on the four-line file, the single directive replacing line three by
empty content with a matching declared count succeeds, but the substitution
replaces only the bracketed fragment text and leaves the surrounding line
feeds, so the written content keeps an empty line where line three stood
instead of removing the line: the result is the five-piece text a, b,
empty, d rather than the three-line deletion the specification states.  The
expected-line-count bookkeeping in the source counts empty new content as
zero lines, confirming deletion was the intent. -/
theorem c1_delete_leaves_blank_line :
    replaceFileBlocks ("a\nb\nc\nd\n").toList 4 [⟨some 3, some 3, []⟩]
      = Except.ok ("a\nb\n\nd\n").toList
    ∧ ("a\nb\n\nd\n").toList ≠ ("a\nb\nd\n").toList :=
  ⟨rfl, by decide⟩

/-- C6: on the four-line file, the single directive replacing line two by
the letter B with a matching declared count succeeds and produces exactly
the file with line two replaced. -/
theorem c6_single_range_replace :
    replaceFileBlocks ("a\nb\nc\nd\n").toList 4 [⟨some 2, some 2, ("B").toList⟩]
      = Except.ok ("a\nB\nc\nd\n").toList := rfl

/-- C10 (amended): every successful replace_file_blocks call passes the
entire working buffer through removeFixedLineNumbers before writing, and
that strip removes a leading bracketed-digits marker from every line of the
final buffer; consequently a bracket-prefixed new-content line that comes to
stand at a line start of the final buffer loses its prefix, as in the
whole-line replacement of line two by the bracketed-twelve content on the
four-line file, whose written result carries no bracketed twelve.  The strip
acts on the final buffer, not on the directive text, so new content landing
mid-line after a first-occurrence substitution can keep its bracket prefix
(see the counterexample). -/
theorem c10_new_content_marker_stripped :
    (∀ (content : List Char) (declared : Nat) (edits : List EditByLinesItem) (out : List Char),
      replaceFileBlocks content declared edits = Except.ok out →
      ∃ working,
        replaceLoop (modelLineCount content) edits
            (addLineNumbers (modelGetValueLF content) defaultLineNumberOptions) edits
            (addLineNumbers (modelGetValueLF content) defaultLineNumberOptions)
          = Except.ok working
        ∧ out = removeFixedLineNumbers working)
    ∧ replaceFileBlocks ("a\nb\nc\nd\n").toList 4 [⟨some 2, some 2, ("[12]x").toList⟩]
        = Except.ok ("a\nx\nc\nd\n").toList
    ∧ containsSeg ("[12]").toList ("a\nx\nc\nd\n").toList = false := by
  refine ⟨?_, rfl, by decide⟩
  intro content declared edits out h
  by_cases hd : declared = modelLineCount content
  · subst hd
    rw [replaceFileBlocks_fresh] at h
    cases hloop : replaceLoop (modelLineCount content) edits
        (addLineNumbers (modelGetValueLF content) defaultLineNumberOptions) edits
        (addLineNumbers (modelGetValueLF content) defaultLineNumberOptions) with
    | error err =>
      rw [hloop] at h
      exact absurd h (by simp)
    | ok working =>
      rw [hloop] at h
      simp only [Except.ok.injEq] at h
      exact ⟨working, rfl, h.symm⟩
  · rw [replaceFileBlocks, if_pos hd] at h
    exact absurd h (by simp)

/-- C10 counterexample: on the file whose first line contains the text of
the line-two fragment, the first-occurrence substitution lands mid-line, the
bracketed-twelve prefix of the new content does not stand at a line start of
the final buffer, and it survives into the written file — so inserted
bracket-prefixed content is not always stripped. -/
theorem c10_new_content_marker_counterexample :
    replaceFileBlocks ("q[2]bz\nb\nc").toList 3 [⟨some 2, some 2, ("[12]x").toList⟩]
      = Except.ok ("q[12]xz\nb\nc").toList
    ∧ containsSeg ("[12]").toList ("q[12]xz\nb\nc").toList = true :=
  ⟨rfl, by decide⟩

/-- C10 witness: the universal strip-at-the-end fact applied to the
whole-line replacement on the four-line file. -/
theorem c10_new_content_marker_stripped_witness :
    replaceFileBlocks ("a\nb\nc\nd\n").toList 4 [⟨some 2, some 2, ("[12]x").toList⟩]
      = Except.ok ("a\nx\nc\nd\n").toList
    ∧ (∃ working,
        replaceLoop (modelLineCount (("a\nb\nc\nd\n").toList))
            [⟨some 2, some 2, ("[12]x").toList⟩]
            (addLineNumbers (modelGetValueLF (("a\nb\nc\nd\n").toList)) defaultLineNumberOptions)
            [⟨some 2, some 2, ("[12]x").toList⟩]
            (addLineNumbers (modelGetValueLF (("a\nb\nc\nd\n").toList)) defaultLineNumberOptions)
          = Except.ok working
        ∧ ("a\nx\nc\nd\n").toList = removeFixedLineNumbers working) :=
  ⟨rfl, (c10_new_content_marker_stripped).1 (("a\nb\nc\nd\n").toList) 4
      [⟨some 2, some 2, ("[12]x").toList⟩] (("a\nx\nc\nd\n").toList) rfl⟩

/-- C3: whenever the declared original line count differs from the current
line count of the file, both replace_file_blocks and insert_file_blocks fail
with the staleness error before applying any directive, the error message
contains both the current and the declared count, and the file content is
unchanged. -/
theorem c3_staleness_check (content : List Char) (declared : Nat)
    (edits : List EditByLinesItem) (inserts : List InsertFileBlocksItem)
    (h : declared ≠ modelLineCount content) :
    replaceFileBlocks content declared edits
        = Except.error (ToolError.stale (modelLineCount content) declared)
    ∧ fileAfterReplace content declared edits = content
    ∧ insertFileBlocks content declared inserts
        = Except.error (ToolError.stale (modelLineCount content) declared)
    ∧ fileAfterInsert content declared inserts = content
    ∧ containsSeg (natDigits (modelLineCount content))
        (errorMessage (ToolError.stale (modelLineCount content) declared)) = true
    ∧ containsSeg (natDigits declared)
        (errorMessage (ToolError.stale (modelLineCount content) declared)) = true := by
  have h1 : replaceFileBlocks content declared edits
      = Except.error (ToolError.stale (modelLineCount content) declared) := by
    simp [replaceFileBlocks, h]
  have h2 : insertFileBlocks content declared inserts
      = Except.error (ToolError.stale (modelLineCount content) declared) := by
    simp [insertFileBlocks, h]
  refine ⟨h1, ?_, h2, ?_, ?_, ?_⟩
  · simp [fileAfterReplace, h1]
  · simp [fileAfterInsert, h2]
  · exact containsSeg_of_decomp (natDigits (modelLineCount content))
      (("File content has been changed. Please refresh the file and try again.current line count:").toList)
      ((",your file version line count:").toList ++ natDigits declared)
      _ (by simp [errorMessage, List.append_assoc])
  · exact containsSeg_of_decomp (natDigits declared)
      (("File content has been changed. Please refresh the file and try again.current line count:").toList
        ++ natDigits (modelLineCount content) ++ (",your file version line count:").toList)
      [] _ (by simp [errorMessage, List.append_assoc])

/-- C3 witness: a two-line file with a declared count of nine. -/
theorem c3_staleness_check_witness :
    ((9 : Nat) ≠ modelLineCount ("a\nb").toList)
    ∧ (replaceFileBlocks ("a\nb").toList 9 []
        = Except.error (ToolError.stale (modelLineCount ("a\nb").toList) 9)
      ∧ fileAfterReplace ("a\nb").toList 9 [] = ("a\nb").toList
      ∧ insertFileBlocks ("a\nb").toList 9 []
        = Except.error (ToolError.stale (modelLineCount ("a\nb").toList) 9)
      ∧ fileAfterInsert ("a\nb").toList 9 [] = ("a\nb").toList
      ∧ containsSeg (natDigits (modelLineCount ("a\nb").toList))
          (errorMessage (ToolError.stale (modelLineCount ("a\nb").toList) 9)) = true
      ∧ containsSeg (natDigits 9)
          (errorMessage (ToolError.stale (modelLineCount ("a\nb").toList) 9)) = true) :=
  ⟨by decide, c3_staleness_check ("a\nb").toList 9 [] [] (by decide)⟩

/-- C4 (amended): on a fresh snapshot, if the first directive in submission
order passes the bounds check and the sorted adjacent-pair scan finds an
overlap, the batch fails with the overlap error naming both submission
indices and both ranges (all six numbers appear in the message) and the file
is unchanged; the claim as stated also promised the overlap error when the
first directive itself is out of bounds, but the per-directive bounds check
of the first directive runs before the overlap scan and wins (see the
counterexample).  Conversely, ranges that merely touch are not rejected:
when every directive is in bounds and the sorted adjacent-pair scan finds no
overlap, every directive applies and the call succeeds. -/
theorem c4_overlap_check (content : List Char) :
    (∀ (edits : List EditByLinesItem) (i a b j c d : Nat),
      headRangeOk (modelLineCount content) edits = true →
      overlapError (modelLineCount content) edits = some (ToolError.overlap i a b j c d) →
      replaceFileBlocks content (modelLineCount content) edits
          = Except.error (ToolError.overlap i a b j c d)
      ∧ fileAfterReplace content (modelLineCount content) edits = content
      ∧ containsSeg (natDigits i) (errorMessage (ToolError.overlap i a b j c d)) = true
      ∧ containsSeg (natDigits a) (errorMessage (ToolError.overlap i a b j c d)) = true
      ∧ containsSeg (natDigits b) (errorMessage (ToolError.overlap i a b j c d)) = true
      ∧ containsSeg (natDigits j) (errorMessage (ToolError.overlap i a b j c d)) = true
      ∧ containsSeg (natDigits c) (errorMessage (ToolError.overlap i a b j c d)) = true
      ∧ containsSeg (natDigits d) (errorMessage (ToolError.overlap i a b j c d)) = true)
    ∧ (∀ edits : List EditByLinesItem,
      (∀ e ∈ edits, rangeOk (modelLineCount content) e = true) →
      overlapError (modelLineCount content) edits = none →
      ∃ out, replaceFileBlocks content (modelLineCount content) edits = Except.ok out) := by
  constructor
  · intro edits i a b j c d hhead hov
    have herr : replaceFileBlocks content (modelLineCount content) edits
        = Except.error (ToolError.overlap i a b j c d) := by
      cases edits with
      | nil => simp [overlapError, rangesOf, sortByStart, findAdjOverlap] at hov
      | cons e rest =>
        have he : rangeOk (modelLineCount content) e = true := by
          simpa [headRangeOk] using hhead
        have hcond := rangeOk_not_cond _ e he
        rw [replaceFileBlocks_fresh]
        simp only [replaceLoop, if_neg hcond, hov]
    refine ⟨herr, fileAfterReplace_of_error _ _ _ _ herr, ?_, ?_, ?_, ?_, ?_, ?_⟩
    · exact containsSeg_of_decomp (natDigits i)
        (("Edit blocks overlap at edits[").toList)
        (("] (lines ").toList ++ natDigits a ++ ("-").toList ++ natDigits b
          ++ (") and edits[").toList ++ natDigits j ++ ("] (lines ").toList ++ natDigits c
          ++ ("-").toList ++ natDigits d ++ ("). Overlapping edits are not allowed.").toList)
        _ (by simp [errorMessage, List.append_assoc])
    · exact containsSeg_of_decomp (natDigits a)
        (("Edit blocks overlap at edits[").toList ++ natDigits i ++ ("] (lines ").toList)
        (("-").toList ++ natDigits b
          ++ (") and edits[").toList ++ natDigits j ++ ("] (lines ").toList ++ natDigits c
          ++ ("-").toList ++ natDigits d ++ ("). Overlapping edits are not allowed.").toList)
        _ (by simp [errorMessage, List.append_assoc])
    · exact containsSeg_of_decomp (natDigits b)
        (("Edit blocks overlap at edits[").toList ++ natDigits i ++ ("] (lines ").toList
          ++ natDigits a ++ ("-").toList)
        ((") and edits[").toList ++ natDigits j ++ ("] (lines ").toList ++ natDigits c
          ++ ("-").toList ++ natDigits d ++ ("). Overlapping edits are not allowed.").toList)
        _ (by simp [errorMessage, List.append_assoc])
    · exact containsSeg_of_decomp (natDigits j)
        (("Edit blocks overlap at edits[").toList ++ natDigits i ++ ("] (lines ").toList
          ++ natDigits a ++ ("-").toList ++ natDigits b ++ (") and edits[").toList)
        (("] (lines ").toList ++ natDigits c
          ++ ("-").toList ++ natDigits d ++ ("). Overlapping edits are not allowed.").toList)
        _ (by simp [errorMessage, List.append_assoc])
    · exact containsSeg_of_decomp (natDigits c)
        (("Edit blocks overlap at edits[").toList ++ natDigits i ++ ("] (lines ").toList
          ++ natDigits a ++ ("-").toList ++ natDigits b ++ (") and edits[").toList
          ++ natDigits j ++ ("] (lines ").toList)
        (("-").toList ++ natDigits d ++ ("). Overlapping edits are not allowed.").toList)
        _ (by simp [errorMessage, List.append_assoc])
    · exact containsSeg_of_decomp (natDigits d)
        (("Edit blocks overlap at edits[").toList ++ natDigits i ++ ("] (lines ").toList
          ++ natDigits a ++ ("-").toList ++ natDigits b ++ (") and edits[").toList
          ++ natDigits j ++ ("] (lines ").toList ++ natDigits c ++ ("-").toList)
        (("). Overlapping edits are not allowed.").toList)
        _ (by simp [errorMessage, List.append_assoc])
  · intro edits hall hov
    rw [replaceFileBlocks_fresh]
    obtain ⟨out, hout⟩ := replaceLoop_ok_of_valid (modelLineCount content) edits
      (addLineNumbers (modelGetValueLF content) defaultLineNumberOptions) edits
      (addLineNumbers (modelGetValueLF content) defaultLineNumberOptions) hov hall
    rw [hout]
    exact ⟨removeFixedLineNumbers out, rfl⟩

/-- C4 counterexample: on the five-line file, the batch whose first
directive starts at line zero and whose second covers lines four to eight
has an overlapping sorted adjacent pair, yet the call fails with the
out-of-bounds error of the first directive, not the overlap error the claim
promises. -/
theorem c4_overlap_check_counterexample :
    overlapError 5 [⟨some 0, some 5, ("x").toList⟩, ⟨some 4, some 8, ("y").toList⟩]
      = some (ToolError.overlap 0 0 5 1 4 8)
    ∧ isOverlapResult (replaceFileBlocks demoFive 5
        [⟨some 0, some 5, ("x").toList⟩, ⟨some 4, some 8, ("y").toList⟩]) = false
    ∧ replaceFileBlocks demoFive 5
        [⟨some 0, some 5, ("x").toList⟩, ⟨some 4, some 8, ("y").toList⟩]
      = Except.error (ToolError.invalidRange 5) :=
  ⟨rfl, rfl, rfl⟩

/-- C4 witness: the overlapping pair one-to-five and four-to-eight fails
with the overlap error, and the touching pair one-to-five and six-to-eight
applies successfully, on the eight-line file. -/
theorem c4_overlap_check_witness :
    (replaceFileBlocks demoEight (modelLineCount demoEight)
        [⟨some 1, some 5, ("x").toList⟩, ⟨some 4, some 8, ("y").toList⟩]
        = Except.error (ToolError.overlap 0 1 5 1 4 8)
      ∧ fileAfterReplace demoEight (modelLineCount demoEight)
          [⟨some 1, some 5, ("x").toList⟩, ⟨some 4, some 8, ("y").toList⟩] = demoEight
      ∧ containsSeg (natDigits 0) (errorMessage (ToolError.overlap 0 1 5 1 4 8)) = true
      ∧ containsSeg (natDigits 1) (errorMessage (ToolError.overlap 0 1 5 1 4 8)) = true
      ∧ containsSeg (natDigits 5) (errorMessage (ToolError.overlap 0 1 5 1 4 8)) = true
      ∧ containsSeg (natDigits 1) (errorMessage (ToolError.overlap 0 1 5 1 4 8)) = true
      ∧ containsSeg (natDigits 4) (errorMessage (ToolError.overlap 0 1 5 1 4 8)) = true
      ∧ containsSeg (natDigits 8) (errorMessage (ToolError.overlap 0 1 5 1 4 8)) = true)
    ∧ (∃ out, replaceFileBlocks demoEight (modelLineCount demoEight)
        [⟨some 1, some 5, ("x").toList⟩, ⟨some 6, some 8, ("y").toList⟩] = Except.ok out) :=
  ⟨(c4_overlap_check demoEight).1
      [⟨some 1, some 5, ("x").toList⟩, ⟨some 4, some 8, ("y").toList⟩]
      0 1 5 1 4 8 (by decide) (by decide),
    (c4_overlap_check demoEight).2
      [⟨some 1, some 5, ("x").toList⟩, ⟨some 6, some 8, ("y").toList⟩]
      (by decide) (by decide)⟩

/-- C5 (amended): on a fresh snapshot, a batch containing any range
directive with a start below one, an end beyond the current line count, or a
start beyond its end always fails before the file is modified; the failure
is the out-of-bounds range error whenever the sorted adjacent-pair overlap
scan finds no overlap, but an overlap detected before the loop reaches the
offending directive produces the overlap error instead (see the
counterexample).  The single-directive batches with start zero or with
start five and end three are rejected with the out-of-bounds error on any
file, and an insertion whose anchor lies outside one to the current line
count fails with the anchor error, leaving the file unchanged. -/
theorem c5_bounds_check (content : List Char) :
    (∀ edits : List EditByLinesItem,
      (∃ e ∈ edits, rangeOk (modelLineCount content) e = false) →
      (∃ err, replaceFileBlocks content (modelLineCount content) edits = Except.error err)
      ∧ fileAfterReplace content (modelLineCount content) edits = content)
    ∧ (∀ edits : List EditByLinesItem,
      (∃ e ∈ edits, rangeOk (modelLineCount content) e = false) →
      overlapError (modelLineCount content) edits = none →
      replaceFileBlocks content (modelLineCount content) edits
        = Except.error (ToolError.invalidRange (modelLineCount content)))
    ∧ (∀ (en : Nat) (nc : List Char),
      replaceFileBlocks content (modelLineCount content) [⟨some 0, some en, nc⟩]
        = Except.error (ToolError.invalidRange (modelLineCount content)))
    ∧ (∀ nc : List Char,
      replaceFileBlocks content (modelLineCount content) [⟨some 5, some 3, nc⟩]
        = Except.error (ToolError.invalidRange (modelLineCount content)))
    ∧ (∀ inserts : List InsertFileBlocksItem,
      (∃ i ∈ inserts, anchorOk (modelLineCount content) i = false) →
      insertFileBlocks content (modelLineCount content) inserts
        = Except.error (ToolError.invalidAnchor (modelLineCount content))
      ∧ fileAfterInsert content (modelLineCount content) inserts = content) := by
  refine ⟨?_, ?_, ?_, ?_, ?_⟩
  · intro edits hviol
    obtain ⟨err, herr⟩ := replaceLoop_err_of_viol (modelLineCount content) edits
      (addLineNumbers (modelGetValueLF content) defaultLineNumberOptions) edits
      (addLineNumbers (modelGetValueLF content) defaultLineNumberOptions) hviol
    have h1 : replaceFileBlocks content (modelLineCount content) edits = Except.error err := by
      rw [replaceFileBlocks_fresh, herr]
    exact ⟨⟨err, h1⟩, fileAfterReplace_of_error _ _ _ _ h1⟩
  · intro edits hviol hov
    rw [replaceFileBlocks_fresh,
      replaceLoop_err_invalid (modelLineCount content) edits _ edits _ hov hviol]
  · intro en nc
    have hcond : (⟨some 0, some en, nc⟩ : EditByLinesItem).startLine.getD 1 < 1
        ∨ (⟨some 0, some en, nc⟩ : EditByLinesItem).endLine.getD (modelLineCount content)
            > modelLineCount content
        ∨ (⟨some 0, some en, nc⟩ : EditByLinesItem).startLine.getD 1
            > (⟨some 0, some en, nc⟩ : EditByLinesItem).endLine.getD (modelLineCount content) :=
      Or.inl (by simp)
    rw [replaceFileBlocks_fresh]
    simp only [replaceLoop, if_pos hcond]
  · intro nc
    have hcond : (⟨some 5, some 3, nc⟩ : EditByLinesItem).startLine.getD 1 < 1
        ∨ (⟨some 5, some 3, nc⟩ : EditByLinesItem).endLine.getD (modelLineCount content)
            > modelLineCount content
        ∨ (⟨some 5, some 3, nc⟩ : EditByLinesItem).startLine.getD 1
            > (⟨some 5, some 3, nc⟩ : EditByLinesItem).endLine.getD (modelLineCount content) := by
      by_cases h3 : 3 > modelLineCount content
      · exact Or.inr (Or.inl (by simpa using h3))
      · exact Or.inr (Or.inr (by simp))
    rw [replaceFileBlocks_fresh]
    simp only [replaceLoop, if_pos hcond]
  · intro inserts hviol
    have h1 : insertFileBlocks content (modelLineCount content) inserts
        = Except.error (ToolError.invalidAnchor (modelLineCount content)) := by
      rw [insertFileBlocks_fresh,
        insertLoop_err_of_viol (modelLineCount content) _ inserts _ hviol]
    exact ⟨h1, fileAfterInsert_of_error _ _ _ _ h1⟩

/-- C5 counterexample: on the five-line file, the batch of the in-bounds
range one-to-five followed by the out-of-bounds range zero-to-nine contains
a bounds violation, yet the call fails with the overlap error (the overlap
scan runs during the first iteration, before the second directive is ever
bounds-checked), not with the out-of-bounds error the claim promises. -/
theorem c5_bounds_check_counterexample :
    rangeOk 5 ⟨some 0, some 9, []⟩ = false
    ∧ isRangeErrorResult (replaceFileBlocks demoFive 5
        [⟨some 1, some 5, []⟩, ⟨some 0, some 9, []⟩]) = false
    ∧ replaceFileBlocks demoFive 5 [⟨some 1, some 5, []⟩, ⟨some 0, some 9, []⟩]
      = Except.error (ToolError.overlap 1 0 9 0 1 5) :=
  ⟨rfl, rfl, rfl⟩

/-- C5 witness: the amended bounds behavior at concrete inputs on the
five-line file: an overlap-free batch with an out-of-bounds second directive
fails with the range error and leaves the file unchanged, the two
single-directive batches are rejected, and a batch with anchor nine fails
with the anchor error. -/
theorem c5_bounds_check_witness :
    ((∃ e ∈ [(⟨some 1, some 2, []⟩ : EditByLinesItem), ⟨some 4, some 9, []⟩],
        rangeOk (modelLineCount demoFive) e = false)
      ∧ (∃ err, replaceFileBlocks demoFive (modelLineCount demoFive)
          [⟨some 1, some 2, []⟩, ⟨some 4, some 9, []⟩] = Except.error err)
      ∧ fileAfterReplace demoFive (modelLineCount demoFive)
          [⟨some 1, some 2, []⟩, ⟨some 4, some 9, []⟩] = demoFive)
    ∧ replaceFileBlocks demoFive (modelLineCount demoFive)
        [⟨some 1, some 2, []⟩, ⟨some 4, some 9, []⟩]
      = Except.error (ToolError.invalidRange (modelLineCount demoFive))
    ∧ replaceFileBlocks demoFive (modelLineCount demoFive) [⟨some 0, some 2, ("z").toList⟩]
      = Except.error (ToolError.invalidRange (modelLineCount demoFive))
    ∧ replaceFileBlocks demoFive (modelLineCount demoFive) [⟨some 5, some 3, ("z").toList⟩]
      = Except.error (ToolError.invalidRange (modelLineCount demoFive))
    ∧ (insertFileBlocks demoFive (modelLineCount demoFive) [⟨some 9, none, ("z").toList⟩]
        = Except.error (ToolError.invalidAnchor (modelLineCount demoFive))
      ∧ fileAfterInsert demoFive (modelLineCount demoFive) [⟨some 9, none, ("z").toList⟩]
        = demoFive) :=
  ⟨⟨by decide, (c5_bounds_check demoFive).1
      [⟨some 1, some 2, []⟩, ⟨some 4, some 9, []⟩] (by decide)⟩,
    (c5_bounds_check demoFive).2.1
      [⟨some 1, some 2, []⟩, ⟨some 4, some 9, []⟩] (by decide) (by decide),
    (c5_bounds_check demoFive).2.2.1 2 (("z").toList),
    (c5_bounds_check demoFive).2.2.2.1 (("z").toList),
    (c5_bounds_check demoFive).2.2.2.2 [⟨some 9, none, ("z").toList⟩] (by decide)⟩

/-- C7: the insertion parser stores the anchor it extracts in the
insert_after_line field of each parsed item, while the insert_file_blocks
parameter validator reads the absent line_index field, substitutes the
default zero, and then lifts any value below one to one; consequently, for
every batch coming through this parse path, every validated insertion
directive carries anchor line one, whatever anchors the directive text
declared. -/
theorem c7_insert_anchor_lost (xml : List Char) (items : List ParsedInsertItem)
    (hparse : parseRawInsertFileBlocks xml = Except.ok items) :
    ∀ out, validateInsertBatch items = Except.ok out →
      out.map (fun e => e.line_index) = items.map (fun _ => some 1) := by
  intro out hout
  have hne : items ≠ [] := by
    intro hi
    subst hi
    simp [validateInsertBatch] at hout
  have hout2 : out = items.map validateOneInsert := by
    simp [validateInsertBatch, hne] at hout
    exact hout.symm
  subst hout2
  rw [List.map_map]
  exact List.map_congr_left (fun e _ => rfl)

/-- C7 witness: a directive text declaring anchor seven parses to an item
with insert_after_line seven, and the validated batch carries anchor one. -/
theorem c7_insert_anchor_lost_witness :
    parseRawInsertFileBlocks
        (("<edit><insert_after_line>7</insert_after_line><new_content>hi</new_content></edit>").toList)
      = Except.ok [⟨7, ("hi").toList⟩]
    ∧ validateInsertBatch [⟨7, ("hi").toList⟩]
      = Except.ok [⟨some 1, none, ("hi").toList⟩]
    ∧ ([(⟨some 1, none, ("hi").toList⟩ : InsertFileBlocksItem)].map (fun e => e.line_index)
        = [(⟨7, ("hi").toList⟩ : ParsedInsertItem)].map (fun _ => some 1)) :=
  ⟨rfl, rfl,
    c7_insert_anchor_lost
      (("<edit><insert_after_line>7</insert_after_line><new_content>hi</new_content></edit>").toList)
      [⟨7, ("hi").toList⟩] rfl [⟨some 1, none, ("hi").toList⟩] rfl⟩

/-- C9 (amended): when the cleaned input (the raw input after trimming and
the two first-occurrence newline-adjacent content-tag normalizations)
contains no recognizable edit segment, parseRawEdits fails rather than
returning an empty directive list, and the error message contains the
cleaned input in full — which is the raw input verbatim whenever the cleanup
leaves it unchanged; the raw input itself is not always contained (see the
counterexample with a leading space). -/
theorem c9_zero_segment_failure (s : List Char)
    (h : findEditBlocks (cleanInput s) = []) :
    parseRawEdits s = Except.error (ToolError.parseNoEditTags (cleanInput s))
    ∧ containsSeg (cleanInput s)
        (errorMessage (ToolError.parseNoEditTags (cleanInput s))) = true := by
  constructor
  · simp [parseRawEdits, h]
  · exact containsSeg_of_decomp (cleanInput s)
      (("[parseRawEdits] 未找到任何 <edit> 标签\nXML 内容:\n").toList) [] _
      (by simp [errorMessage])

/-- C9 counterexample: the input consisting of a space and the letter x has
no recognizable edit segment and parsing fails, but the message carries the
trimmed input and therefore does not contain the full raw input. -/
theorem c9_zero_segment_counterexample :
    parseRawEdits ((" x").toList) = Except.error (ToolError.parseNoEditTags (("x").toList))
    ∧ containsSeg ((" x").toList)
        (errorMessage (ToolError.parseNoEditTags (("x").toList))) = false :=
  ⟨rfl, by decide⟩

/-- C9 witness: a segment-free input fails with its cleaned text contained
in the message. -/
theorem c9_zero_segment_failure_witness :
    findEditBlocks (cleanInput (("hello no tags").toList)) = []
    ∧ (parseRawEdits (("hello no tags").toList)
        = Except.error (ToolError.parseNoEditTags (cleanInput (("hello no tags").toList)))
      ∧ containsSeg (cleanInput (("hello no tags").toList))
          (errorMessage (ToolError.parseNoEditTags (cleanInput (("hello no tags").toList)))) = true) :=
  ⟨rfl, c9_zero_segment_failure (("hello no tags").toList) rfl⟩

end VoidEdit
